import Mathlib

/-!
Shallow embedding of the RepoDocGen retrieval core
(`src/rag/vector_store.py`, `src/rag/hybrid_search.py`, `src/chatbot/qa_bot.py`).

Modelling conventions:
* Machine floats become exact rationals `ℚ`.
* Python dicts become insertion-ordered association lists (`dictSet` / `dictGet`
  mirror `d[k] = v` and `d.get(k)`; keys built this way stay unique).
* External collaborators (Voyage embeddings, the `rank_bm25` scoring function,
  the OpenAI chat completion) are fields of an `Env` record; fallible calls
  return `Except`.
* Python exceptions are modelled by `Except Err`; `Err.valueError msg`
  corresponds to `raise ValueError(msg)`, `Err.keyError` to an uncaught
  `KeyError`, `Err.apiError` to an exception escaping a collaborator call.
* FAISS `IndexFlatL2` is modelled exactly: it stores the vectors in insertion
  order and `search` returns the `k` nearest by squared L2 distance, ties
  resolved towards the lower slot (stable sort over the enumerated slots).
* CPython `sorted(..., key=..., reverse=True)` is a stable descending sort,
  modelled by `stableSort` with the corresponding `before` test.
-/

namespace RepoDocGen

/-- Exceptions of the Python source.  `valueError` carries the message of the
`raise ValueError(...)` statement it models. -/
inductive Err where
  | valueError (msg : String)
  | keyError (key : String)
  | apiError (msg : String)
  deriving Repr, DecidableEq

/-- Python dict assignment `d[k] = v`: update the (unique) binding of `k` in
place if present, otherwise append a new binding. -/
def dictSet {α : Type} : List (String × α) → String → α → List (String × α)
  | [], k, v => [(k, v)]
  | p :: t, k, v => if p.1 = k then (k, v) :: t else p :: dictSet t k v

/-- Python dict lookup `d.get(k)`. -/
def dictGet {α : Type} : List (String × α) → String → Option α
  | [], _ => none
  | p :: t, k => if p.1 = k then some p.2 else dictGet t k

/-- Accumulator pass of Python `str.split()`: split on runs of whitespace,
dropping empty pieces. -/
def splitWsAux : List Char → List Char → List (List Char)
  | [], acc => if acc = [] then [] else [acc.reverse]
  | c :: rest, acc =>
    if c.isWhitespace then
      (if acc = [] then splitWsAux rest [] else acc.reverse :: splitWsAux rest [])
    else splitWsAux rest (c :: acc)

/-- Python `str.split()` with no separator argument, as used to tokenize both
documents and queries in `hybrid_search.py`. -/
def pySplit (s : String) : List String :=
  (splitWsAux s.toList []).map (fun cs => String.mk cs)

/-- Stable insertion: place `x` at the first spot where `before x q` holds. -/
def stableInsert {α : Type} (before : α → α → Bool) (x : α) : List α → List α
  | [] => [x]
  | q :: t => if before x q then x :: q :: t else q :: stableInsert before x t

/-- Stable sort (model of CPython `sorted`): with `before x q` meaning `x` may
precede `q`, equal elements keep their original relative order provided
`before` holds on equals. -/
def stableSort {α : Type} (before : α → α → Bool) : List α → List α
  | [] => []
  | h :: t => stableInsert before h (stableSort before t)

/-- Document chunk (`@dataclass Document` in `vector_store.py`). -/
structure Document where
  id : String
  content : String
  metadata : List (String × String)
  embedding : Option (List ℚ)
  deriving Repr, DecidableEq

/-- External collaborators of the core, injected as deterministic functions.
`embedDoc`/`embedQuery` model the Voyage AI client (batch document mode and
single query mode), `bm25Scores` the `rank_bm25.BM25Okapi(...).get_scores`
call on a tokenized corpus, and `llm` the OpenAI chat completion, whose
failure carries `str(e)`. -/
structure Env where
  embedDoc : List String → Except Err (List (List ℚ))
  embedQuery : String → Except Err (List ℚ)
  bm25Scores : List (List String) → List String → List ℚ
  llm : String → Except String String

/-- Configuration fields of `config.py` used by the core; a missing
environment variable is the empty string (Python falsy). -/
structure Config where
  voyageApiKey : String
  openaiApiKey : String
  hybridSearchAlpha : ℚ
  topKRetrieval : Nat

/-- State of `VectorStore`: the FAISS `IndexFlatL2` contents (`vectors`, with
`ntotal = vectors.length`), the `documents` dict, the `id_to_idx` dict, and
the credential baked into the Voyage client at construction. -/
structure VectorStore where
  voyageApiKey : String
  documents : List (String × Document)
  idToIdx : List (String × Nat)
  vectors : List (List ℚ)
  deriving Repr, DecidableEq

/-- Fresh store contents produced by `VectorStore.__init__` after the
credential check passed. -/
def VectorStore.emptyStore (key : String) : VectorStore :=
  { voyageApiKey := key, documents := [], idToIdx := [], vectors := [] }

/-- Constructor `VectorStore.__init__`: raises
`ValueError("VOYAGE_API_KEY not set in environment")` when the configured
credential is falsy, otherwise yields an empty store holding the credential. -/
def VectorStore.init (cfg : Config) : Except Err VectorStore :=
  if cfg.voyageApiKey = "" then
    Except.error (Err.valueError "VOYAGE_API_KEY not set in environment")
  else Except.ok (VectorStore.emptyStore cfg.voyageApiKey)

/-- Loop body of `VectorStore.add_documents` lines 76-79: store the embedded
document under its id and record its FAISS slot `start_idx + i`. -/
def addStep (embeddings : List (List ℚ)) (startIdx : Nat)
    (st : List (String × Document) × List (String × Nat)) (p : Nat × Document) :
    List (String × Document) × List (String × Nat) :=
  (dictSet st.1 p.2.id { p.2 with embedding := embeddings[p.1]? },
   dictSet st.2 p.2.id (startIdx + p.1))

/-- Method `VectorStore.add_documents`: early-return on an empty batch, embed
all contents in one batch call (an exception escaping that call aborts the
whole build), append the embeddings to FAISS, and record each document in
`documents` and its slot in `id_to_idx`. -/
def VectorStore.addDocuments (vs : VectorStore) (env : Env) (docs : List Document) :
    Except Err VectorStore :=
  if docs = [] then Except.ok vs
  else
    match env.embedDoc (docs.map (fun d => d.content)) with
    | Except.error e => Except.error e
    | Except.ok embeddings =>
      let st := docs.enum.foldl (addStep embeddings vs.vectors.length)
        (vs.documents, vs.idToIdx)
      Except.ok { vs with
        documents := st.1, idToIdx := st.2, vectors := vs.vectors ++ embeddings }

/-- Squared L2 distance, the metric FAISS `IndexFlatL2.search` reports. -/
def sqDist (a b : List ℚ) : ℚ :=
  ((a.zip b).map (fun p => (p.1 - p.2) * (p.1 - p.2))).sum

/-- FAISS `IndexFlatL2.search` on the stored vectors: the `k` nearest slots by
squared L2 distance, ascending, ties towards the lower slot.  (FAISS pads with
`-1` when `k > ntotal`; the caller skips that padding, so it is omitted.) -/
def faissSearch (vectors : List (List ℚ)) (q : List ℚ) (k : Nat) : List (Nat × ℚ) :=
  let dists := vectors.enum.map (fun p => (p.1, sqDist q p.2))
  (stableSort (fun a b => decide (a.2 ≤ b.2)) dists).take k

/-- Dict comprehension `{v: k for k, v in self.id_to_idx.items()}` followed by
lookup of slot `i`: on duplicate slots the later binding wins. -/
def idxToId (m : List (String × Nat)) (i : Nat) : Option String :=
  (m.reverse.find? (fun p => p.2 = i)).map (fun p => p.1)

/-- Method `VectorStore.search`: empty index short-circuits to `[]`; otherwise
embed the query, take the `top_k` nearest slots, resolve each slot back to its
id and document (`self.documents[doc_id]` raises `KeyError` when the dicts
have desynchronized), and report similarity `1 / (1 + dist)`. -/
def VectorStore.search (vs : VectorStore) (env : Env) (query : String) (topK : Nat) :
    Except Err (List (Document × ℚ)) :=
  if vs.vectors.length = 0 then Except.ok []
  else
    match env.embedQuery query with
    | Except.error e => Except.error e
    | Except.ok qe =>
      (faissSearch vs.vectors qe topK).foldlM
        (fun acc p =>
          match idxToId vs.idToIdx p.1 with
          | none => Except.ok acc
          | some docId =>
            match dictGet vs.documents docId with
            | some doc => Except.ok (acc ++ [(doc, 1 / (1 + p.2))])
            | none => Except.error (Err.keyError docId))
        []

/-- Method `VectorStore.get_document`: `self.documents.get(doc_id)`. -/
def VectorStore.getDocument (vs : VectorStore) (docId : String) : Option Document :=
  dictGet vs.documents docId

/-- Method `VectorStore.clear`: `index.reset()`, `documents.clear()`,
`id_to_idx.clear()` — one step over the store's own state. -/
def VectorStore.clear (vs : VectorStore) : VectorStore :=
  { vs with documents := [], idToIdx := [], vectors := [] }

/-- State of `HybridSearch`: the attached `VectorStore` (Python holds a shared
reference; the pair is modelled as one record), the blend weight `alpha`, and
the BM25 side (`bm25` holds the tokenized corpus captured by `BM25Okapi`,
`none` while unbuilt; `doc_ids` the chunk-id ordering of that corpus). -/
structure HybridSearch where
  vs : VectorStore
  alpha : ℚ
  bm25 : Option (List (List String))
  docIds : List String
  deriving Repr, DecidableEq

/-- Constructor `HybridSearch.__init__`. -/
def HybridSearch.mkInit (vs : VectorStore) (alpha : Option ℚ) (cfg : Config) : HybridSearch :=
  { vs := vs, alpha := alpha.getD cfg.hybridSearchAlpha, bm25 := none, docIds := [] }

/-- Method `HybridSearch.index_documents`: add the batch to the vector store,
then rebuild the BM25 index and the id ordering from this batch alone
(the previous BM25 corpus is overwritten, not extended). -/
def HybridSearch.indexDocuments (hs : HybridSearch) (env : Env) (docs : List Document) :
    Except Err HybridSearch :=
  match hs.vs.addDocuments env docs with
  | Except.error e => Except.error e
  | Except.ok vs' =>
    Except.ok { hs with
      vs := vs',
      bm25 := some (docs.map (fun d => pySplit d.content)),
      docIds := docs.map (fun d => d.id) }

/-- Maximum of a list of scores (`numpy.ndarray.max` over the BM25 scores; the
source only evaluates it on a built, hence non-empty, corpus). -/
def listMax : List ℚ → ℚ
  | [] => 0
  | h :: t => t.foldl max h

/-- Normalization step of `HybridSearch.search` lines 63-67: divide by the
maximum BM25 score if it is positive, otherwise keep the raw scores. -/
def normalizeBM25 (scores : List ℚ) : List ℚ :=
  if listMax scores > 0 then scores.map (fun s => s / listMax scores) else scores

/-- Loop body of `HybridSearch.search` lines 77-78:
`combined_scores[doc_id] = (1 - self.alpha) * score`. -/
def lexStep (alpha : ℚ) (d : List (String × ℚ)) (p : String × ℚ) : List (String × ℚ) :=
  dictSet d p.1 ((1 - alpha) * p.2)

/-- Loop body of `HybridSearch.search` lines 81-85: add `alpha * score` onto an
existing entry, or create the entry with `alpha * score`. -/
def semStep (alpha : ℚ) (d : List (String × ℚ)) (p : Document × ℚ) : List (String × ℚ) :=
  match dictGet d p.1.id with
  | some v => dictSet d p.1.id (v + alpha * p.2)
  | none => dictSet d p.1.id (alpha * p.2)

/-- Blend step of `HybridSearch.search` lines 73-85: write the weighted lexical
score of every indexed id into the `combined_scores` dict, then for each
semantic candidate add the weighted similarity onto the existing entry or
create a fresh one. -/
def blendScores (alpha : ℚ) (docIds : List String) (lexNorm : List ℚ)
    (semRes : List (Document × ℚ)) : List (String × ℚ) :=
  semRes.foldl (semStep alpha) ((docIds.zip lexNorm).foldl (lexStep alpha) [])

/-- Method `HybridSearch.search`: semantic-only fallback while BM25 is unbuilt;
otherwise score the corpus lexically, normalize, fetch `2 × top_k` semantic
candidates, blend, sort descending by combined score (stable), truncate to
`top_k`, and resolve each id through the store, dropping ids that fail to
resolve. -/
def HybridSearch.search (hs : HybridSearch) (env : Env) (query : String) (topK : Nat) :
    Except Err (List (Document × ℚ)) :=
  match hs.bm25 with
  | none => hs.vs.search env query topK
  | some corpus =>
    let bm25ScoresNorm := normalizeBM25 (env.bm25Scores corpus (pySplit query))
    match hs.vs.search env query (topK * 2) with
    | Except.error e => Except.error e
    | Except.ok semanticResults =>
      let combinedScores := blendScores hs.alpha hs.docIds bm25ScoresNorm semanticResults
      let sortedIds := (stableSort (fun a b => decide (b.2 ≤ a.2)) combinedScores).take topK
      Except.ok (sortedIds.foldl
        (fun acc p =>
          match hs.vs.getDocument p.1 with
          | some doc => acc ++ [(doc, p.2)]
          | none => acc)
        [])

/-- Method `HybridSearch.set_alpha`.  The guard raises before any assignment,
so on failure the object is untouched; this is modelled by returning the
(possibly updated) state together with the optional raised exception. -/
def HybridSearch.setAlpha (hs : HybridSearch) (alpha : ℚ) : HybridSearch × Option Err :=
  if ¬ (0 ≤ alpha ∧ alpha ≤ 1) then
    (hs, some (Err.valueError "alpha must be between 0 and 1"))
  else ({ hs with alpha := alpha }, none)

/-- State of `QABot`: the retriever and the conversation history of
`(question, answer)` entries. -/
structure QABot where
  hybrid : HybridSearch
  history : List (String × String)
  deriving Repr, DecidableEq

/-- Canned answer returned on empty retrieval. -/
def cannedAnswer : String :=
  "I don\x27t have enough information to answer this question."

/-- Source entry produced by `QABot._format_sources`. -/
structure SourceEntry where
  file : String
  lineRange : String
  type : String
  relevance : ℚ
  preview : String
  deriving Repr, DecidableEq

/-- Structured answer returned by `QABot.query`. -/
structure QAResult where
  answer : String
  sources : List SourceEntry
  confidence : ℚ
  deriving Repr, DecidableEq

/-- Python `metadata.get(key, default)`. -/
def metaGet (m : List (String × String)) (key dflt : String) : String :=
  (dictGet m key).getD dflt

/-- Method `QABot._build_context`. -/
def buildContext (results : List (Document × ℚ)) : String :=
  String.intercalate "\n"
    (results.enum.map (fun p =>
      let doc := p.2.1
      let fileInfo := "File: " ++ metaGet doc.metadata "file_path" "Unknown"
      let fileInfo :=
        if (dictGet doc.metadata "line_range").isSome then
          fileInfo ++ " (lines " ++ metaGet doc.metadata "line_range" "" ++ ")"
        else fileInfo
      "[Source " ++ toString (p.1 + 1) ++ "] " ++ fileInfo ++ "\n" ++ doc.content ++ "\n"))

/-- Method `QABot._build_qa_prompt`. -/
def buildQaPrompt (question context : String) : String :=
  "You are a helpful assistant analyzing a code repository. Answer the user\x27s question based on the provided context from the repository.\n\nContext from repository:\n"
    ++ context
    ++ "\n\nUser Question: " ++ question
    ++ "\n\nInstructions:\n1. Answer the question based ONLY on the provided context\n2. If the context doesn\x27t contain enough information, say so\n3. Reference specific files and line numbers when relevant\n4. Be concise but complete\n5. If asked about code location, cite the file and lines\n6. If asked about functionality, explain what the code does\n\nAnswer:"

/-- Method `QABot._format_sources`. -/
def formatSources (results : List (Document × ℚ)) : List SourceEntry :=
  results.map (fun p =>
    { file := metaGet p.1.metadata "file_path" "Unknown",
      lineRange := metaGet p.1.metadata "line_range" "N/A",
      type := metaGet p.1.metadata "element_type" "code",
      relevance := p.2,
      preview := p.1.content })

/-- Method `QABot.query`.  Retrieval failures propagate (they happen outside
the `try`); the generation call is wrapped, its failure being converted into
an error-shaped answer.  The returned triple is the structured answer, the
conversation history after the call, and an instrumentation flag recording
whether the external generation collaborator was invoked. -/
def QABot.query (bot : QABot) (env : Env) (cfg : Config) (question : String)
    (topK : Option Nat) : Except Err (QAResult × List (String × String) × Bool) :=
  let k := topK.getD cfg.topKRetrieval
  match bot.hybrid.search env question k with
  | Except.error e => Except.error e
  | Except.ok results =>
    if results = [] then
      Except.ok ({ answer := cannedAnswer, sources := [], confidence := 0 },
        bot.history, false)
    else
      let prompt := buildQaPrompt question (buildContext results)
      match env.llm prompt with
      | Except.ok answer =>
        Except.ok ({ answer := answer,
                     sources := formatSources results,
                     confidence := ((results.head?.map (fun p => p.2)).getD 0) },
          bot.history ++ [(question, answer)], true)
      | Except.error e =>
        Except.ok ({ answer := "Error: " ++ e, sources := [], confidence := 0 },
          bot.history, true)

/-! Helper lemmas about the dict model. -/

theorem dictGet_dictSet_self {α : Type} (d : List (String × α)) (k : String) (v : α) :
    dictGet (dictSet d k v) k = some v := by
  induction d with
  | nil => simp [dictSet, dictGet]
  | cons p t ih =>
    by_cases h : p.1 = k
    · simp [dictSet, dictGet, h]
    · simp [dictSet, dictGet, h, ih]

theorem dictGet_dictSet_ne {α : Type} (d : List (String × α)) (k k' : String) (v : α)
    (h : k ≠ k') : dictGet (dictSet d k v) k' = dictGet d k' := by
  induction d with
  | nil => simp [dictSet, dictGet, h]
  | cons p t ih =>
    by_cases hp : p.1 = k
    · have h1 : dictSet (p :: t) k v = (k, v) :: t := by simp [dictSet, hp]
      have h2 : ¬ p.1 = k' := by rw [hp]; exact h
      rw [h1]
      simp [dictGet, h, h2]
    · have h1 : dictSet (p :: t) k v = p :: dictSet t k v := by simp [dictSet, hp]
      rw [h1]
      by_cases hp' : p.1 = k'
      · simp [dictGet, hp']
      · simp [dictGet, hp', ih]

theorem mem_keys_dictSet {α : Type} (d : List (String × α)) (k k' : String) (v : α) :
    k' ∈ (dictSet d k v).map (fun p => p.1) ↔ k' = k ∨ k' ∈ d.map (fun p => p.1) := by
  induction d with
  | nil => simp [dictSet]
  | cons p t ih =>
    by_cases hp : p.1 = k
    · subst hp
      simp [dictSet]
    · simp [dictSet, hp, ih]
      tauto

theorem dictSet_of_not_mem {α : Type} (d : List (String × α)) (k : String) (v : α)
    (h : k ∉ d.map (fun p => p.1)) : dictSet d k v = d ++ [(k, v)] := by
  induction d with
  | nil => simp [dictSet]
  | cons p t ih =>
    simp only [List.map_cons, List.mem_cons] at h
    push_neg at h
    have hp : ¬ p.1 = k := fun hh => h.1 hh.symm
    simp [dictSet, hp, ih h.2]

theorem keys_dictSet_of_mem {α : Type} (d : List (String × α)) (k : String) (v : α)
    (h : k ∈ d.map (fun p => p.1)) :
    (dictSet d k v).map (fun p => p.1) = d.map (fun p => p.1) := by
  induction d with
  | nil => simp at h
  | cons p t ih =>
    by_cases hp : p.1 = k
    · simp [dictSet, hp]
    · have hm : k ∈ t.map (fun p => p.1) := by
        have h2 : k = p.1 ∨ k ∈ t.map (fun p => p.1) := by
          simpa only [List.map_cons, List.mem_cons] using h
        rcases h2 with h1 | h1
        · exact absurd h1.symm hp
        · exact h1
      simp [dictSet, hp, ih hm]

theorem nodup_keys_dictSet {α : Type} (d : List (String × α)) (k : String) (v : α)
    (h : (d.map (fun p => p.1)).Nodup) :
    ((dictSet d k v).map (fun p => p.1)).Nodup := by
  by_cases hm : k ∈ d.map (fun p => p.1)
  · rw [keys_dictSet_of_mem d k v hm]; exact h
  · rw [dictSet_of_not_mem d k v hm]
    have hnd : (d.map (fun p => p.1) ++ [k]).Nodup := by
      refine List.Nodup.append h (by simp) ?_
      intro x hx hk
      simp only [List.mem_singleton] at hk
      subst hk
      exact hm hx
    simpa using hnd

theorem dictGet_eq_none_iff {α : Type} (d : List (String × α)) (k : String) :
    dictGet d k = none ↔ k ∉ d.map (fun p => p.1) := by
  induction d with
  | nil => simp [dictGet]
  | cons p t ih =>
    by_cases hp : p.1 = k
    · rw [dictGet, if_pos hp]
      simp only [List.map_cons, List.mem_cons, not_or]
      constructor
      · intro hh; cases hh
      · intro hh; exact absurd hp.symm hh.1
    · rw [dictGet, if_neg hp, ih]
      simp only [List.map_cons, List.mem_cons, not_or]
      constructor
      · intro hm
        exact ⟨fun hh => hp hh.symm, hm⟩
      · intro hm
        exact hm.2

theorem dictGet_isSome_iff {α : Type} (d : List (String × α)) (k : String) :
    (dictGet d k).isSome ↔ k ∈ d.map (fun p => p.1) := by
  rcases h : dictGet d k with _ | v
  · simpa [h] using (dictGet_eq_none_iff d k).1 h
  · simp only [Option.isSome_some, true_iff]
    by_contra hm
    rw [(dictGet_eq_none_iff d k).2 hm] at h
    cases h

/-! Helper lemmas about the stable sort model. -/

theorem length_stableInsert {α : Type} (before : α → α → Bool) (x : α) (l : List α) :
    (stableInsert before x l).length = l.length + 1 := by
  induction l with
  | nil => simp [stableInsert]
  | cons q t ih =>
    by_cases h : before x q
    · simp [stableInsert, h]
    · simp [stableInsert, h, ih]

theorem length_stableSort {α : Type} (before : α → α → Bool) (l : List α) :
    (stableSort before l).length = l.length := by
  induction l with
  | nil => simp [stableSort]
  | cons h t ih => simp [stableSort, length_stableInsert, ih]

theorem mem_stableInsert {α : Type} (before : α → α → Bool) (x a : α) (l : List α) :
    a ∈ stableInsert before x l ↔ a = x ∨ a ∈ l := by
  induction l with
  | nil => simp [stableInsert]
  | cons q t ih =>
    by_cases h : before x q
    · simp [stableInsert, h]
    · simp only [stableInsert, h, Bool.false_eq_true, if_false, List.mem_cons, ih]
      tauto

theorem mem_stableSort {α : Type} (before : α → α → Bool) (a : α) (l : List α) :
    a ∈ stableSort before l ↔ a ∈ l := by
  induction l with
  | nil => simp [stableSort]
  | cons h t ih => simp [stableSort, mem_stableInsert, ih]

/-! Helper lemmas about `listMax`. -/

theorem le_foldl_max (t : List ℚ) : ∀ a : ℚ, a ≤ t.foldl max a := by
  induction t with
  | nil => intro a; simp
  | cons x t ih =>
    intro a
    calc a ≤ max a x := le_max_left a x
    _ ≤ t.foldl max (max a x) := ih (max a x)
    _ = (x :: t).foldl max a := by simp

theorem mem_le_foldl_max (t : List ℚ) : ∀ (a s : ℚ), s ∈ t → s ≤ t.foldl max a := by
  induction t with
  | nil => intro a s hs; cases hs
  | cons x t ih =>
    intro a s hs
    rcases List.mem_cons.1 hs with h | h
    · subst h
      calc s ≤ max a s := le_max_right a s
      _ ≤ t.foldl max (max a s) := le_foldl_max t (max a s)
      _ = (s :: t).foldl max a := by simp
    · simpa using ih (max a x) s h

theorem le_listMax (l : List ℚ) (s : ℚ) (hs : s ∈ l) : s ≤ listMax l := by
  cases l with
  | nil => cases hs
  | cons h t =>
    rcases List.mem_cons.1 hs with h' | h'
    · subst h'; exact le_foldl_max t s
    · exact mem_le_foldl_max t h s h'

theorem foldl_max_mem (t : List ℚ) : ∀ a : ℚ, t.foldl max a = a ∨ t.foldl max a ∈ t := by
  induction t with
  | nil => intro a; left; rfl
  | cons x t ih =>
    intro a
    rcases ih (max a x) with h | h
    · rcases max_choice a x with hm | hm
      · left
        show List.foldl max (max a x) t = a
        rw [h, hm]
      · right
        have hx : List.foldl max a (x :: t) = x := by
          show List.foldl max (max a x) t = x
          rw [h, hm]
        rw [hx]
        exact List.mem_cons_self x t
    · right
      exact List.mem_cons_of_mem x h

theorem listMax_mem (l : List ℚ) (hne : l ≠ []) : listMax l ∈ l := by
  cases l with
  | nil => exact absurd rfl hne
  | cons h t =>
    show t.foldl max h ∈ h :: t
    rcases foldl_max_mem t h with h' | h'
    · rw [h']; exact List.mem_cons_self h t
    · exact List.mem_cons_of_mem h h'

/-! Lemmas about the two blending folds. -/

theorem dictGet_foldl_stable {β : Type} (g : List (String × ℚ) → β → List (String × ℚ))
    (key : β → String) (k : String)
    (hg : ∀ d p, key p ≠ k → dictGet (g d p) k = dictGet d k) :
    ∀ (l : List β) (d0 : List (String × ℚ)), k ∉ l.map key →
      dictGet (l.foldl g d0) k = dictGet d0 k := by
  intro l
  induction l with
  | nil => intro d0 _; rfl
  | cons p t ih =>
    intro d0 hk
    simp only [List.map_cons, List.mem_cons, not_or] at hk
    rw [List.foldl_cons, ih (g d0 p) hk.2, hg d0 p (fun hh => hk.1 hh.symm)]

theorem lexStep_stable (alpha : ℚ) (d : List (String × ℚ)) (p : String × ℚ) (k : String)
    (h : p.1 ≠ k) : dictGet (lexStep alpha d p) k = dictGet d k :=
  dictGet_dictSet_ne d p.1 k _ h

theorem semStep_stable (alpha : ℚ) (d : List (String × ℚ)) (p : Document × ℚ) (k : String)
    (h : p.1.id ≠ k) : dictGet (semStep alpha d p) k = dictGet d k := by
  unfold semStep
  cases dictGet d p.1.id with
  | none => exact dictGet_dictSet_ne d p.1.id k _ h
  | some v => exact dictGet_dictSet_ne d p.1.id k _ h

theorem dictGet_lexFold (alpha : ℚ) (pairs : List (String × ℚ)) (k : String)
    (hnd : (pairs.map (fun p => p.1)).Nodup) :
    ∀ d0 : List (String × ℚ),
      dictGet (pairs.foldl (lexStep alpha) d0) k =
        match pairs.find? (fun p => p.1 = k) with
        | some p => some ((1 - alpha) * p.2)
        | none => dictGet d0 k := by
  induction pairs with
  | nil => intro d0; rfl
  | cons p t ih =>
    intro d0
    simp only [List.map_cons, List.nodup_cons] at hnd
    by_cases hk : p.1 = k
    · have hnt : k ∉ t.map (fun q => q.1) := by rw [← hk]; exact hnd.1
      rw [List.foldl_cons,
        dictGet_foldl_stable (lexStep alpha) (fun q => q.1) k
          (fun d q hq => lexStep_stable alpha d q k hq) t _ hnt]
      rw [List.find?_cons_of_pos _ (by simpa using hk)]
      show dictGet (dictSet d0 p.1 ((1 - alpha) * p.2)) k = _
      rw [hk, dictGet_dictSet_self]
    · rw [List.foldl_cons, ih hnd.2 (lexStep alpha d0 p),
        List.find?_cons_of_neg _ (by simpa using hk)]
      cases t.find? (fun q => q.1 = k) with
      | some q => rfl
      | none =>
        show dictGet (dictSet d0 p.1 ((1 - alpha) * p.2)) k = dictGet d0 k
        exact dictGet_dictSet_ne d0 p.1 k _ hk

theorem dictGet_semFold (alpha : ℚ) (semRes : List (Document × ℚ)) (k : String)
    (hnd : (semRes.map (fun p => p.1.id)).Nodup) :
    ∀ d0 : List (String × ℚ),
      dictGet (semRes.foldl (semStep alpha) d0) k =
        match semRes.find? (fun p => p.1.id = k) with
        | some p => some ((dictGet d0 k).getD 0 + alpha * p.2)
        | none => dictGet d0 k := by
  induction semRes with
  | nil => intro d0; rfl
  | cons p t ih =>
    intro d0
    simp only [List.map_cons, List.nodup_cons] at hnd
    by_cases hk : p.1.id = k
    · have hnt : k ∉ t.map (fun q => q.1.id) := by rw [← hk]; exact hnd.1
      rw [List.foldl_cons,
        dictGet_foldl_stable (semStep alpha) (fun q => q.1.id) k
          (fun d q hq => semStep_stable alpha d q k hq) t _ hnt]
      rw [List.find?_cons_of_pos _ (by simpa using hk)]
      unfold semStep
      cases hd : dictGet d0 p.1.id with
      | some v =>
        rw [hk] at hd
        rw [hk, dictGet_dictSet_self, hd]
        rfl
      | none =>
        rw [hk] at hd
        rw [hk, dictGet_dictSet_self, hd]
        simp
    · rw [List.foldl_cons, ih hnd.2 (semStep alpha d0 p),
        List.find?_cons_of_neg _ (by simpa using hk)]
      have hstable : dictGet (semStep alpha d0 p) k = dictGet d0 k :=
        semStep_stable alpha d0 p k hk
      cases t.find? (fun q => q.1.id = k) with
      | some q => rw [hstable]
      | none => exact hstable

theorem mem_keys_lexFold (alpha : ℚ) (pairs : List (String × ℚ)) (k : String) :
    ∀ d0 : List (String × ℚ),
      (k ∈ (pairs.foldl (lexStep alpha) d0).map (fun p => p.1) ↔
        k ∈ pairs.map (fun p => p.1) ∨ k ∈ d0.map (fun p => p.1)) := by
  induction pairs with
  | nil => intro d0; simp
  | cons p t ih =>
    intro d0
    rw [List.foldl_cons, ih (lexStep alpha d0 p)]
    unfold lexStep
    rw [mem_keys_dictSet]
    simp only [List.map_cons, List.mem_cons]
    tauto

theorem mem_keys_semFold (alpha : ℚ) (semRes : List (Document × ℚ)) (k : String) :
    ∀ d0 : List (String × ℚ),
      (k ∈ (semRes.foldl (semStep alpha) d0).map (fun p => p.1) ↔
        k ∈ semRes.map (fun p => p.1.id) ∨ k ∈ d0.map (fun p => p.1)) := by
  induction semRes with
  | nil => intro d0; simp
  | cons p t ih =>
    intro d0
    rw [List.foldl_cons, ih (semStep alpha d0 p)]
    have hk : k ∈ (semStep alpha d0 p).map (fun q => q.1) ↔
        k = p.1.id ∨ k ∈ d0.map (fun q => q.1) := by
      unfold semStep
      cases dictGet d0 p.1.id with
      | some v => exact mem_keys_dictSet d0 p.1.id k _
      | none => exact mem_keys_dictSet d0 p.1.id k _
    rw [hk]
    simp only [List.map_cons, List.mem_cons]
    tauto

theorem keys_nodup_lexFold (alpha : ℚ) (pairs : List (String × ℚ)) :
    ∀ d0 : List (String × ℚ), (d0.map (fun p => p.1)).Nodup →
      ((pairs.foldl (lexStep alpha) d0).map (fun p => p.1)).Nodup := by
  induction pairs with
  | nil => intro d0 h; exact h
  | cons p t ih =>
    intro d0 h
    rw [List.foldl_cons]
    exact ih _ (nodup_keys_dictSet d0 p.1 _ h)

theorem keys_nodup_semFold (alpha : ℚ) (semRes : List (Document × ℚ)) :
    ∀ d0 : List (String × ℚ), (d0.map (fun p => p.1)).Nodup →
      ((semRes.foldl (semStep alpha) d0).map (fun p => p.1)).Nodup := by
  induction semRes with
  | nil => intro d0 h; exact h
  | cons p t ih =>
    intro d0 h
    rw [List.foldl_cons]
    refine ih _ ?_
    unfold semStep
    cases dictGet d0 p.1.id with
    | some v => exact nodup_keys_dictSet d0 p.1.id _ h
    | none => exact nodup_keys_dictSet d0 p.1.id _ h

theorem zip_keys_sublist {α β : Type} (l1 : List α) (l2 : List β) :
    ((l1.zip l2).map (fun p => p.1)).Sublist l1 := by
  induction l1 generalizing l2 with
  | nil => simp
  | cons a t ih =>
    cases l2 with
    | nil => simp
    | cons b t2 =>
      simpa using List.Sublist.cons₂ a (ih t2)

/-- Normalized lexical score a chunk id receives in the blend: its entry in the
zip of the id ordering with the normalized score vector, `0` when absent. -/
def lexLookup (docIds : List String) (lexNorm : List ℚ) (k : String) : ℚ :=
  match (docIds.zip lexNorm).find? (fun p => p.1 = k) with
  | some p => p.2
  | none => 0

/-- Semantic similarity a chunk id receives in the blend: its score among the
semantic candidates, `0` when absent. -/
def semLookup (semRes : List (Document × ℚ)) (k : String) : ℚ :=
  match semRes.find? (fun p => p.1.id = k) with
  | some p => p.2
  | none => 0

/-- Sample retriever state shared by concrete witnesses. -/
def sampleHS : HybridSearch :=
  { vs := VectorStore.emptyStore "key", alpha := 1/2, bm25 := none, docIds := [] }

/-- Claim C1: for every corpus indexed through `HybridSearch.index_documents`
and every query, `HybridSearch.search` assigns each chunk id (of the lexical
ordering or of the semantic candidate set) the combined score
`(1 - alpha) × normalized_lexical_score + alpha × semantic_similarity`, a side
from which the id is missing contributing `0` rather than excluding the id. -/
theorem hybrid_blend_assigns_combined_score (alpha : ℚ) (docIds : List String)
    (lexNorm : List ℚ) (semRes : List (Document × ℚ)) (k : String)
    (hndLex : docIds.Nodup)
    (hndSem : (semRes.map (fun p => p.1.id)).Nodup)
    (hmem : k ∈ (docIds.zip lexNorm).map (fun p => p.1) ∨
      k ∈ semRes.map (fun p => p.1.id)) :
    dictGet (blendScores alpha docIds lexNorm semRes) k =
      some ((1 - alpha) * lexLookup docIds lexNorm k + alpha * semLookup semRes k) := by
  have hndZip : ((docIds.zip lexNorm).map (fun p => p.1)).Nodup :=
    (zip_keys_sublist docIds lexNorm).nodup hndLex
  unfold blendScores
  rw [dictGet_semFold alpha semRes k hndSem _, dictGet_lexFold alpha _ k hndZip]
  cases hsem : semRes.find? (fun p => p.1.id = k) with
  | some p =>
    have hsl : semLookup semRes k = p.2 := by rw [semLookup, hsem]
    cases hlex : (docIds.zip lexNorm).find? (fun q => q.1 = k) with
    | some q =>
      have hll : lexLookup docIds lexNorm k = q.2 := by rw [lexLookup, hlex]
      rw [hsl, hll]
      rfl
    | none =>
      have hll : lexLookup docIds lexNorm k = 0 := by rw [lexLookup, hlex]
      rw [hsl, hll]
      simp [dictGet]
  | none =>
    have hsl : semLookup semRes k = 0 := by rw [semLookup, hsem]
    have hks : k ∉ semRes.map (fun p => p.1.id) := by
      intro hk
      rcases List.mem_map.1 hk with ⟨p, hp, hpk⟩
      have := List.find?_eq_none.1 hsem p hp
      simp [hpk] at this
    have hkl : k ∈ (docIds.zip lexNorm).map (fun p => p.1) := by
      rcases hmem with h | h
      · exact h
      · exact absurd h hks
    rcases List.mem_map.1 hkl with ⟨q, hq, hqk⟩
    cases hlex : (docIds.zip lexNorm).find? (fun q => q.1 = k) with
    | none =>
      have := List.find?_eq_none.1 hlex q hq
      simp [hqk] at this
    | some q' =>
      have hll : lexLookup docIds lexNorm k = q'.2 := by rw [lexLookup, hlex]
      rw [hsl, hll]
      rw [mul_zero, add_zero]

theorem hybrid_blend_assigns_combined_score_witness :
    (["a", "b"] : List String).Nodup ∧
    (([((⟨"a", "x", [], none⟩ : Document), (1:ℚ)/3)].map (fun p => p.1.id)).Nodup) ∧
    ("a" ∈ ((["a", "b"].zip [(1:ℚ), 1/2]).map (fun p => p.1)) ∨
      "a" ∈ [((⟨"a", "x", [], none⟩ : Document), (1:ℚ)/3)].map (fun p => p.1.id)) ∧
    dictGet (blendScores (1/2) ["a", "b"] [1, 1/2]
        [((⟨"a", "x", [], none⟩ : Document), 1/3)]) "a" =
      some ((1 - 1/2) * lexLookup ["a", "b"] [1, 1/2] "a" +
        1/2 * semLookup [((⟨"a", "x", [], none⟩ : Document), 1/3)] "a") :=
  ⟨by decide, by decide, by decide,
    hybrid_blend_assigns_combined_score (1/2) ["a", "b"] [1, 1/2]
      [((⟨"a", "x", [], none⟩ : Document), 1/3)] "a"
      (by decide) (by decide) (by decide)⟩

/-- Claim C4: `HybridSearch.set_alpha` outside `[0, 1]` fails with the
range-validation error and leaves the stored alpha at its prior value (the
returned state is the unchanged one); inside `[0, 1]` it succeeds and the
stored weight becomes the argument. -/
theorem set_alpha_validates_range (hs : HybridSearch) (alpha : ℚ) :
    (¬ (0 ≤ alpha ∧ alpha ≤ 1) →
      hs.setAlpha alpha =
        (hs, some (Err.valueError "alpha must be between 0 and 1"))) ∧
    ((0 ≤ alpha ∧ alpha ≤ 1) →
      hs.setAlpha alpha = ({ hs with alpha := alpha }, none)) := by
  constructor
  · intro h
    simp [HybridSearch.setAlpha, h]
  · intro h
    simp [HybridSearch.setAlpha, h]

theorem set_alpha_validates_range_witness :
    sampleHS.setAlpha (3/2) =
      (sampleHS, some (Err.valueError "alpha must be between 0 and 1")) ∧
    sampleHS.setAlpha (1/4) = ({ sampleHS with alpha := 1/4 }, none) :=
  ⟨(set_alpha_validates_range sampleHS (3/2)).1 (by norm_num),
   (set_alpha_validates_range sampleHS (1/4)).2 (by norm_num)⟩

/-- Claim C7: when every raw lexical score is `0` the normalization step is
skipped (no division by the zero maximum) and every lexical score stays `0`;
otherwise (raw BM25 relevance scores being non-negative, with some score
non-zero) each raw score is divided by the maximum observed score. -/
theorem bm25_normalization_zero_guard (scores : List ℚ) :
    ((∀ s ∈ scores, s = 0) →
      normalizeBM25 scores = scores ∧ ∀ s ∈ normalizeBM25 scores, s = 0) ∧
    ((∀ s ∈ scores, 0 ≤ s) → (∃ s ∈ scores, s ≠ 0) →
      normalizeBM25 scores = scores.map (fun s => s / listMax scores)) := by
  constructor
  · intro h0
    have hmax : ¬ listMax scores > 0 := by
      by_cases hs : scores = []
      · simp [hs, listMax]
      · have h1 : listMax scores = 0 := h0 _ (listMax_mem scores hs)
        simp [h1]
    have hnorm : normalizeBM25 scores = scores := by
      rw [normalizeBM25, if_neg hmax]
    exact ⟨hnorm, by rw [hnorm]; exact h0⟩
  · intro hnn hex
    rcases hex with ⟨s0, hs0m, hs0⟩
    have hpos : 0 < listMax scores :=
      lt_of_lt_of_le (lt_of_le_of_ne (hnn s0 hs0m) (Ne.symm hs0)) (le_listMax scores s0 hs0m)
    rw [normalizeBM25, if_pos hpos]

theorem bm25_normalization_zero_guard_witness :
    (normalizeBM25 [0, 0] = [0, 0] ∧ ∀ s ∈ normalizeBM25 [0, 0], s = 0) ∧
    normalizeBM25 [2, 1] = [2, 1].map (fun s => s / listMax [2, 1]) :=
  ⟨(bm25_normalization_zero_guard [0, 0]).1
      (by intro s hs; simpa using hs),
   (bm25_normalization_zero_guard [2, 1]).2
      (by
        intro s hs
        rcases List.mem_cons.1 hs with h | h
        · rw [h]; norm_num
        · simp only [List.mem_singleton] at h
          rw [h]; norm_num)
      ⟨2, by simp, by norm_num⟩⟩

/-- Effect on the composed state of calling `vector_store.clear()` on the
store shared with a `HybridSearch` instance: the store fields reset, and the
retriever's BM25 corpus and id ordering are untouched (no code path resets
them). -/
def clearStore (hs : HybridSearch) : HybridSearch :=
  { hs with vs := hs.vs.clear }

theorem resolveFold_empty_store (vs : VectorStore) (h : vs.documents = []) :
    ∀ (l : List (String × ℚ)) (acc : List (Document × ℚ)),
      l.foldl (fun acc p =>
        match vs.getDocument p.1 with
        | some doc => acc ++ [(doc, p.2)]
        | none => acc) acc = acc := by
  intro l
  induction l with
  | nil => intro acc; rfl
  | cons p t ih =>
    intro acc
    have hg : vs.getDocument p.1 = none := by
      rw [VectorStore.getDocument, h]
      rfl
    rw [List.foldl_cons, hg]
    exact ih acc

/-- Claim C3 (amended): `VectorStore.clear` resets the chunks, the embedding
index and the id↔slot mapping together in one step, and every subsequent
search against the cleared store returns no results; the retriever's lexical
index (BM25 corpus and chunk-id ordering) however survives the clear, since
nothing resets it. -/
theorem clear_resets_store_not_lexical_index (hs : HybridSearch) (env : Env)
    (q : String) (k : Nat) :
    (clearStore hs).vs.documents = [] ∧
    (clearStore hs).vs.idToIdx = [] ∧
    (clearStore hs).vs.vectors = [] ∧
    (clearStore hs).docIds = hs.docIds ∧
    (clearStore hs).bm25 = hs.bm25 ∧
    (clearStore hs).search env q k = Except.ok [] := by
  refine ⟨rfl, rfl, rfl, rfl, rfl, ?_⟩
  cases hb : hs.bm25 with
  | none =>
    show HybridSearch.search _ env q k = Except.ok []
    rw [HybridSearch.search]
    have hcb : (clearStore hs).bm25 = none := hb
    rw [hcb]
    rfl
  | some corpus =>
    show HybridSearch.search _ env q k = Except.ok []
    rw [HybridSearch.search]
    have hcb : (clearStore hs).bm25 = some corpus := hb
    rw [hcb]
    have hsem : (clearStore hs).vs.search env q (k * 2) = Except.ok [] := rfl
    rw [hsem]
    exact congrArg Except.ok (resolveFold_empty_store (clearStore hs).vs rfl _ [])

/-- Claim C3 is refuted as stated: after indexing one chunk through
`HybridSearch.index_documents` and then clearing the shared store with
`VectorStore.clear`, the stale lexical chunk-id ordering (and BM25 corpus)
survives for subsequent searches — the two indices are not invalidated
together. -/
theorem clear_lexical_ordering_survives_counterexample :
    ∃ hs1 : HybridSearch,
      sampleHS.indexDocuments
          { embedDoc := fun ts => Except.ok (ts.map (fun _ => [0])),
            embedQuery := fun _ => Except.ok [0],
            bm25Scores := fun c _ => c.map (fun _ => 0),
            llm := fun _ => Except.ok "a" }
          [{ id := "1", content := "cat sat", metadata := [], embedding := none }] =
        Except.ok hs1 ∧
      (clearStore hs1).docIds = ["1"] ∧
      (clearStore hs1).bm25 = some [["cat", "sat"]] :=
  ⟨_, rfl, rfl, rfl⟩

/-- Store state modelling a Voyage client holding no credential (the
configuration credential is the empty string, i.e. unset). -/
def noCredStore : VectorStore := VectorStore.emptyStore ""

/-- Claim C9 is refuted as stated: `VectorStore.add_documents` performs no
credential check, so called on a store in a no-credential configuration it
stores the batch and succeeds instead of failing with the configuration
error. -/
theorem add_documents_without_credential_counterexample :
    noCredStore.voyageApiKey = "" ∧
    noCredStore.addDocuments
        { embedDoc := fun ts => Except.ok (ts.map (fun _ => [0])),
          embedQuery := fun _ => Except.ok [0],
          bm25Scores := fun c _ => c.map (fun _ => 0),
          llm := fun _ => Except.ok "a" }
        [{ id := "1", content := "cat sat", metadata := [], embedding := none }] =
      Except.ok
        { voyageApiKey := "",
          documents :=
            [("1", { id := "1", content := "cat sat", metadata := [],
                     embedding := some [0] })],
          idToIdx := [("1", 0)],
          vectors := [[0]] } :=
  ⟨rfl, rfl⟩

/-- Claim C9 (amended): the credential check lives in the store constructor,
not in `add_documents`: `VectorStore.__init__` fails with the configuration
error (`ValueError` on the missing `VOYAGE_API_KEY`) when no embedding
credential is present, so a store on which `add_documents` can run at all was
constructed with a credential. -/
theorem credential_checked_at_construction (cfg : Config) :
    (cfg.voyageApiKey = "" →
      VectorStore.init cfg =
        Except.error (Err.valueError "VOYAGE_API_KEY not set in environment")) ∧
    (cfg.voyageApiKey ≠ "" →
      VectorStore.init cfg = Except.ok (VectorStore.emptyStore cfg.voyageApiKey)) := by
  constructor
  · intro h
    simp [VectorStore.init, h]
  · intro h
    simp [VectorStore.init, h]

theorem credential_checked_at_construction_witness :
    VectorStore.init ⟨"", "", 1/2, 5⟩ =
      Except.error (Err.valueError "VOYAGE_API_KEY not set in environment") ∧
    VectorStore.init ⟨"key", "", 1/2, 5⟩ =
      Except.ok (VectorStore.emptyStore "key") :=
  ⟨(credential_checked_at_construction _).1 rfl,
   (credential_checked_at_construction _).2 (by decide)⟩

/-- Claim C5: a question whose retrieval yields zero chunks returns exactly
the canned insufficient-information answer with empty sources and confidence
`0`, invokes no external generation collaborator, and leaves the history
unchanged. -/
theorem query_empty_retrieval_canned (bot : QABot) (env : Env) (cfg : Config)
    (question : String) (topK : Option Nat)
    (hret : bot.hybrid.search env question (topK.getD cfg.topKRetrieval) =
      Except.ok []) :
    bot.query env cfg question topK =
      Except.ok ({ answer := cannedAnswer, sources := [], confidence := 0 },
        bot.history, false) := by
  simp [QABot.query, hret]

/-- Deterministic collaborator environment used by concrete witnesses; its
generation call succeeds. -/
def sampleEnv : Env :=
  { embedDoc := fun ts => Except.ok (ts.map (fun _ => [0])),
    embedQuery := fun _ => Except.ok [],
    bm25Scores := fun c _ => c.map (fun _ => 0),
    llm := fun _ => Except.ok "generated answer" }

/-- Collaborator environment used by concrete witnesses whose generation call
fails. -/
def sampleEnvErr : Env :=
  { sampleEnv with llm := fun _ => Except.error "boom" }

/-- One-chunk sample document used by concrete witnesses. -/
def sampleDoc : Document :=
  { id := "1", content := "cat sat", metadata := [], embedding := none }

/-- Bot over an empty store (retrieval yields zero chunks). -/
def sampleBot : QABot := { hybrid := sampleHS, history := [("q0", "a0")] }

/-- Bot over a one-chunk store (retrieval yields that chunk). -/
def sampleBotOne : QABot :=
  { hybrid :=
      { vs := { voyageApiKey := "key", documents := [("1", sampleDoc)],
                idToIdx := [("1", 0)], vectors := [[]] },
        alpha := 1/2, bm25 := none, docIds := [] },
    history := [("q0", "a0")] }

theorem query_empty_retrieval_canned_witness :
    sampleBot.hybrid.search sampleEnv "q" ((none : Option Nat).getD
        ((⟨"key", "key", 1/2, 5⟩ : Config)).topKRetrieval) = Except.ok [] ∧
    sampleBot.query sampleEnv ⟨"key", "key", 1/2, 5⟩ "q" none =
      Except.ok ({ answer := cannedAnswer, sources := [], confidence := 0 },
        sampleBot.history, false) :=
  ⟨rfl, query_empty_retrieval_canned sampleBot sampleEnv ⟨"key", "key", 1/2, 5⟩ "q" none rfl⟩

/-- Claim C6: when retrieval returns at least one chunk and the external
generation collaborator fails, `QABot.query` catches the failure and returns
a structured answer embedding the error description, with empty sources and
confidence `0`, instead of propagating the exception. -/
theorem query_llm_failure_degrades (bot : QABot) (env : Env) (cfg : Config)
    (question : String) (topK : Option Nat) (results : List (Document × ℚ)) (e : String)
    (hret : bot.hybrid.search env question (topK.getD cfg.topKRetrieval) =
      Except.ok results)
    (hne : results ≠ [])
    (hllm : env.llm (buildQaPrompt question (buildContext results)) = Except.error e) :
    bot.query env cfg question topK =
      Except.ok ({ answer := "Error: " ++ e, sources := [], confidence := 0 },
        bot.history, true) := by
  simp [QABot.query, hret, hne, hllm]

theorem query_llm_failure_degrades_witness :
    sampleBotOne.hybrid.search sampleEnvErr "q" ((some 5).getD
        ((⟨"key", "key", 1/2, 5⟩ : Config)).topKRetrieval) =
      Except.ok [(sampleDoc, 1 / (1 + (0:ℚ)))] ∧
    ([(sampleDoc, 1 / (1 + (0:ℚ)))] : List (Document × ℚ)) ≠ [] ∧
    sampleEnvErr.llm (buildQaPrompt "q"
        (buildContext [(sampleDoc, 1 / (1 + (0:ℚ)))])) = Except.error "boom" ∧
    sampleBotOne.query sampleEnvErr ⟨"key", "key", 1/2, 5⟩ "q" (some 5) =
      Except.ok ({ answer := "Error: " ++ "boom", sources := [], confidence := 0 },
        sampleBotOne.history, true) :=
  ⟨rfl, by simp, rfl,
    query_llm_failure_degrades sampleBotOne sampleEnvErr ⟨"key", "key", 1/2, 5⟩ "q"
      (some 5) [(sampleDoc, 1 / (1 + (0:ℚ)))] "boom" rfl (by simp) rfl⟩

/-- Claim C10: `QABot.query` leaves the conversation history unchanged on the
zero-results path and on the collaborator-failure path, and appends exactly
the `(question, answer)` entry when the external generation call succeeds. -/
theorem query_history_frame (bot : QABot) (env : Env) (cfg : Config)
    (question : String) (topK : Option Nat) (results : List (Document × ℚ))
    (hret : bot.hybrid.search env question (topK.getD cfg.topKRetrieval) =
      Except.ok results) :
    (results = [] →
      bot.query env cfg question topK =
        Except.ok ({ answer := cannedAnswer, sources := [], confidence := 0 },
          bot.history, false)) ∧
    (∀ e, results ≠ [] →
      env.llm (buildQaPrompt question (buildContext results)) = Except.error e →
      bot.query env cfg question topK =
        Except.ok ({ answer := "Error: " ++ e, sources := [], confidence := 0 },
          bot.history, true)) ∧
    (∀ a, results ≠ [] →
      env.llm (buildQaPrompt question (buildContext results)) = Except.ok a →
      bot.query env cfg question topK =
        Except.ok
          ({ answer := a,
             sources := formatSources results,
             confidence := (results.head?.map (fun p => p.2)).getD 0 },
           bot.history ++ [(question, a)], true)) := by
  refine ⟨?_, ?_, ?_⟩
  · intro h
    subst h
    simp [QABot.query, hret]
  · intro e hne hllm
    simp [QABot.query, hret, hne, hllm]
  · intro a hne hllm
    simp [QABot.query, hret, hne, hllm]

theorem query_history_frame_witness :
    sampleBotOne.hybrid.search sampleEnv "q" ((some 5).getD
        ((⟨"key", "key", 1/2, 5⟩ : Config)).topKRetrieval) =
      Except.ok [(sampleDoc, 1 / (1 + (0:ℚ)))] ∧
    sampleEnv.llm (buildQaPrompt "q"
        (buildContext [(sampleDoc, 1 / (1 + (0:ℚ)))])) =
      Except.ok "generated answer" ∧
    sampleBotOne.query sampleEnv ⟨"key", "key", 1/2, 5⟩ "q" (some 5) =
      Except.ok
        ({ answer := "generated answer",
           sources := formatSources [(sampleDoc, 1 / (1 + (0:ℚ)))],
           confidence :=
             ((([(sampleDoc, 1 / (1 + (0:ℚ)))] : List (Document × ℚ)).head?.map
               (fun p => p.2)).getD 0) },
         sampleBotOne.history ++ [("q", "generated answer")], true) :=
  ⟨rfl, rfl,
    (query_history_frame sampleBotOne sampleEnv ⟨"key", "key", 1/2, 5⟩ "q" (some 5)
        [(sampleDoc, 1 / (1 + (0:ℚ)))] rfl).2.2 "generated answer" (by simp) rfl⟩

/-! Store-level lemmas used by the indexing claims. -/

theorem mem_dictSet_elim {α : Type} (d : List (String × α)) (k : String) (v : α)
    (q : String × α) (h : q ∈ dictSet d k v) : q = (k, v) ∨ q ∈ d := by
  induction d with
  | nil => simpa [dictSet] using h
  | cons p t ih =>
    by_cases hp : p.1 = k
    · rw [show dictSet (p :: t) k v = (k, v) :: t by simp [dictSet, hp]] at h
      rcases List.mem_cons.1 h with h1 | h1
      · exact Or.inl h1
      · exact Or.inr (List.mem_cons_of_mem p h1)
    · rw [show dictSet (p :: t) k v = p :: dictSet t k v by simp [dictSet, hp]] at h
      rcases List.mem_cons.1 h with h1 | h1
      · exact Or.inr (h1 ▸ List.mem_cons_self p t)
      · rcases ih h1 with h2 | h2
        · exact Or.inl h2
        · exact Or.inr (List.mem_cons_of_mem p h2)

theorem dictGet_some_mem {α : Type} (d : List (String × α)) (k : String) (v : α)
    (h : dictGet d k = some v) : (k, v) ∈ d := by
  induction d with
  | nil => cases h
  | cons p t ih =>
    by_cases hp : p.1 = k
    · rw [dictGet, if_pos hp] at h
      have hpkv : p = (k, v) := by
        rcases p with ⟨a, b⟩
        simp only at hp h
        injection h with h2
        rw [hp, h2]
      rw [← hpkv]
      exact List.mem_cons_self p t
    · rw [dictGet, if_neg hp] at h
      exact List.mem_cons_of_mem p (ih h)

theorem enum_map_doc_ids (docs : List Document) :
    docs.enum.map (fun p => p.2.id) = docs.map (fun d => d.id) := by
  rw [show (fun p : Nat × Document => p.2.id) =
      (fun d : Document => d.id) ∘ Prod.snd from rfl]
  rw [← List.map_map, List.enum_map_snd]

theorem addFold_keys (embeddings : List (List ℚ)) (startIdx : Nat) :
    ∀ (l : List (Nat × Document)) (st : List (String × Document) × List (String × Nat)),
      (∀ i ∈ l.map (fun p => p.2.id), i ∉ st.1.map (fun q => q.1)) →
      (∀ i ∈ l.map (fun p => p.2.id), i ∉ st.2.map (fun q => q.1)) →
      (l.map (fun p => p.2.id)).Nodup →
      ((l.foldl (addStep embeddings startIdx) st).1.map (fun q => q.1) =
          st.1.map (fun q => q.1) ++ l.map (fun p => p.2.id)) ∧
      ((l.foldl (addStep embeddings startIdx) st).2.map (fun q => q.1) =
          st.2.map (fun q => q.1) ++ l.map (fun p => p.2.id)) := by
  intro l
  induction l with
  | nil => intro st _ _ _; simp
  | cons p t ih =>
    intro st hd1 hd2 hnd
    simp only [List.map_cons, List.nodup_cons] at hnd
    have hp1 : p.2.id ∉ st.1.map (fun q => q.1) := hd1 _ (by simp)
    have hp2 : p.2.id ∉ st.2.map (fun q => q.1) := hd2 _ (by simp)
    have hset1 : (addStep embeddings startIdx st p).1 =
        st.1 ++ [(p.2.id, { p.2 with embedding := embeddings[p.1]? })] :=
      dictSet_of_not_mem _ _ _ hp1
    have hset2 : (addStep embeddings startIdx st p).2 =
        st.2 ++ [(p.2.id, startIdx + p.1)] :=
      dictSet_of_not_mem _ _ _ hp2
    have hd1' : ∀ i ∈ t.map (fun q => q.2.id),
        i ∉ (addStep embeddings startIdx st p).1.map (fun q => q.1) := by
      intro i hi
      rw [hset1]
      simp only [List.map_append, List.mem_append]
      intro hmem
      rcases hmem with hm | hm
      · exact hd1 i (by simp [hi]) hm
      · simp only [List.map_cons, List.map_nil, List.mem_singleton] at hm
        exact hnd.1 (hm ▸ hi)
    have hd2' : ∀ i ∈ t.map (fun q => q.2.id),
        i ∉ (addStep embeddings startIdx st p).2.map (fun q => q.1) := by
      intro i hi
      rw [hset2]
      simp only [List.map_append, List.mem_append]
      intro hmem
      rcases hmem with hm | hm
      · exact hd2 i (by simp [hi]) hm
      · simp only [List.map_cons, List.map_nil, List.mem_singleton] at hm
        exact hnd.1 (hm ▸ hi)
    have hrec := ih (addStep embeddings startIdx st p) hd1' hd2' hnd.2
    rw [List.foldl_cons]
    refine ⟨?_, ?_⟩
    · rw [hrec.1, hset1]
      simp
    · rw [hrec.2, hset2]
      simp

theorem addFold_docId_inv (embeddings : List (List ℚ)) (startIdx : Nat) :
    ∀ (l : List (Nat × Document)) (st : List (String × Document) × List (String × Nat)),
      (∀ q ∈ st.1, q.2.id = q.1) →
      ∀ q ∈ (l.foldl (addStep embeddings startIdx) st).1, q.2.id = q.1 := by
  intro l
  induction l with
  | nil => intro st h; exact h
  | cons p t ih =>
    intro st h
    rw [List.foldl_cons]
    refine ih _ ?_
    intro q hq
    rcases mem_dictSet_elim _ _ _ q hq with h1 | h1
    · rw [h1]
    · exact h q h1

theorem addDocuments_ok_keys (vs : VectorStore) (env : Env) (docs : List Document)
    (vs' : VectorStore) (hok : vs.addDocuments env docs = Except.ok vs')
    (hnd : (docs.map (fun d => d.id)).Nodup)
    (hdisj1 : ∀ i ∈ docs.map (fun d => d.id), i ∉ vs.documents.map (fun p => p.1))
    (hdisj2 : ∀ i ∈ docs.map (fun d => d.id), i ∉ vs.idToIdx.map (fun p => p.1)) :
    vs'.documents.map (fun p => p.1) =
      vs.documents.map (fun p => p.1) ++ docs.map (fun d => d.id) ∧
    vs'.idToIdx.map (fun p => p.1) =
      vs.idToIdx.map (fun p => p.1) ++ docs.map (fun d => d.id) := by
  by_cases hd : docs = []
  · rw [VectorStore.addDocuments, if_pos hd] at hok
    cases hok
    simp [hd]
  · rw [VectorStore.addDocuments, if_neg hd] at hok
    cases hemb : env.embedDoc (docs.map (fun d => d.content)) with
    | error e => rw [hemb] at hok; cases hok
    | ok embeddings =>
      rw [hemb] at hok
      have hfold := addFold_keys embeddings vs.vectors.length docs.enum
        (vs.documents, vs.idToIdx)
        (by rw [enum_map_doc_ids]; exact hdisj1)
        (by rw [enum_map_doc_ids]; exact hdisj2)
        (by rw [enum_map_doc_ids]; exact hnd)
      cases hok
      constructor
      · rw [hfold.1, enum_map_doc_ids]
      · rw [hfold.2, enum_map_doc_ids]

theorem addDocuments_ok_docId_inv (vs : VectorStore) (env : Env) (docs : List Document)
    (vs' : VectorStore) (hok : vs.addDocuments env docs = Except.ok vs')
    (hinv : ∀ q ∈ vs.documents, q.2.id = q.1) :
    ∀ q ∈ vs'.documents, q.2.id = q.1 := by
  by_cases hd : docs = []
  · rw [VectorStore.addDocuments, if_pos hd] at hok
    cases hok
    exact hinv
  · rw [VectorStore.addDocuments, if_neg hd] at hok
    cases hemb : env.embedDoc (docs.map (fun d => d.content)) with
    | error e => rw [hemb] at hok; cases hok
    | ok embeddings =>
      rw [hemb] at hok
      cases hok
      exact addFold_docId_inv embeddings vs.vectors.length docs.enum
        (vs.documents, vs.idToIdx) hinv

/-- Claim C2: indexing two batches with disjoint ids through
`HybridSearch.index_documents` doubles the corpus size (the second batch has
the size of the first), and ranking stays deterministic: repeating `search`
with identical query and `top_k` on the resulting state returns identical
results. -/
theorem index_twice_doubles_corpus (env : Env) (key : String) (alpha : ℚ) (cfg : Config)
    (docs1 docs2 : List Document) (hs1 hs2 : HybridSearch)
    (hnd : ((docs1 ++ docs2).map (fun d => d.id)).Nodup)
    (hlen : docs2.length = docs1.length)
    (hidx1 : (HybridSearch.mkInit (VectorStore.emptyStore key) (some alpha)
        cfg).indexDocuments env docs1 = Except.ok hs1)
    (hidx2 : hs1.indexDocuments env docs2 = Except.ok hs2) :
    hs2.vs.documents.length = 2 * docs1.length ∧
    ∀ q k, hs2.search env q k = hs2.search env q k := by
  have hnd' : ((docs1.map (fun d => d.id)) ++ (docs2.map (fun d => d.id))).Nodup := by
    rw [← List.map_append]; exact hnd
  rcases List.nodup_append.1 hnd' with ⟨hnd1, hnd2, hdisj⟩
  rw [HybridSearch.indexDocuments] at hidx1
  cases hadd1 : (HybridSearch.mkInit (VectorStore.emptyStore key) (some alpha)
      cfg).vs.addDocuments env docs1 with
  | error e => rw [hadd1] at hidx1; cases hidx1
  | ok vs1 =>
    rw [hadd1] at hidx1
    have hkeys1 := addDocuments_ok_keys _ env docs1 vs1 hadd1 hnd1
      (by intro i _ hm; simp [HybridSearch.mkInit, VectorStore.emptyStore] at hm)
      (by intro i _ hm; simp [HybridSearch.mkInit, VectorStore.emptyStore] at hm)
    have hdocs1 : vs1.documents.map (fun p => p.1) = docs1.map (fun d => d.id) := by
      have := hkeys1.1
      simpa [HybridSearch.mkInit, VectorStore.emptyStore] using this
    have hs1vs : hs1.vs = vs1 := by
      have := hidx1
      simp only [Except.ok.injEq] at this
      rw [← this]
    rw [HybridSearch.indexDocuments] at hidx2
    cases hadd2 : hs1.vs.addDocuments env docs2 with
    | error e => rw [hadd2] at hidx2; cases hidx2
    | ok vs2 =>
      rw [hadd2] at hidx2
      have hdisj2 : ∀ i ∈ docs2.map (fun d => d.id),
          i ∉ docs1.map (fun d => d.id) := by
        intro i hi hmem
        exact hdisj hmem hi
      have hkeys2 := addDocuments_ok_keys _ env docs2 vs2 hadd2 hnd2
        (by
          intro i hi
          rw [hs1vs, hdocs1]
          exact hdisj2 i hi)
        (by
          intro i hi
          rw [hs1vs,
            (addDocuments_ok_keys _ env docs1 vs1 hadd1 hnd1
              (by intro j _ hm; simp [HybridSearch.mkInit, VectorStore.emptyStore] at hm)
              (by intro j _ hm;
                  simp [HybridSearch.mkInit, VectorStore.emptyStore] at hm)).2]
          simp only [HybridSearch.mkInit, VectorStore.emptyStore]
          simpa using hdisj2 i hi)
      have hs2vs : hs2.vs = vs2 := by
        have := hidx2
        simp only [Except.ok.injEq] at this
        rw [← this]
      refine ⟨?_, fun q k => rfl⟩
      have hkeys : vs2.documents.map (fun p => p.1) =
          docs1.map (fun d => d.id) ++ docs2.map (fun d => d.id) := by
        rw [hkeys2.1, hs1vs, hdocs1]
      have hlen2 : vs2.documents.length = docs1.length + docs2.length := by
        have h1 : (vs2.documents.map (fun p => p.1)).length =
            (docs1.map (fun d => d.id) ++ docs2.map (fun d => d.id)).length := by
          rw [hkeys]
        simpa using h1
      rw [hs2vs, hlen2, hlen]
      omega

theorem index_twice_doubles_corpus_witness :
    ∃ hs1 hs2 : HybridSearch,
      (HybridSearch.mkInit (VectorStore.emptyStore "key") (some (1/2))
          ⟨"key", "key", 1/2, 5⟩).indexDocuments sampleEnv
          [{ id := "1", content := "cat", metadata := [], embedding := none }] =
        Except.ok hs1 ∧
      hs1.indexDocuments sampleEnv
          [{ id := "2", content := "dog", metadata := [], embedding := none }] =
        Except.ok hs2 ∧
      hs2.vs.documents.length = 2 * 1 ∧
      ∀ q k, hs2.search sampleEnv q k = hs2.search sampleEnv q k :=
  ⟨_, _, rfl, rfl,
    (index_twice_doubles_corpus sampleEnv "key" (1/2) ⟨"key", "key", 1/2, 5⟩
      [{ id := "1", content := "cat", metadata := [], embedding := none }]
      [{ id := "2", content := "dog", metadata := [], embedding := none }]
      _ _ (by decide) rfl rfl rfl).1,
    fun q k => rfl⟩

theorem normalizeBM25_length (s : List ℚ) : (normalizeBM25 s).length = s.length := by
  rw [normalizeBM25]
  split
  · simp
  · rfl

theorem idxToId_mem_keys (m : List (String × Nat)) (i : Nat) (id : String)
    (h : idxToId m i = some id) : id ∈ m.map (fun p => p.1) := by
  rw [idxToId] at h
  cases hf : m.reverse.find? (fun p => p.2 = i) with
  | none => rw [hf] at h; cases h
  | some p =>
    rw [hf] at h
    injection h with h2
    have hm : p ∈ m.reverse := List.mem_of_find?_eq_some hf
    rw [← h2]
    exact List.mem_map_of_mem _ (List.mem_reverse.1 hm)

theorem resolveM_ok (vs : VectorStore)
    (hsub : ∀ id ∈ vs.idToIdx.map (fun p => p.1), id ∈ vs.documents.map (fun p => p.1))
    (hinv : ∀ q ∈ vs.documents, q.2.id = q.1) :
    ∀ (nn : List (Nat × ℚ)) (acc : List (Document × ℚ)),
      (∀ r ∈ acc, r.1.id ∈ vs.documents.map (fun p => p.1)) →
      ∃ l, nn.foldlM (fun acc p =>
          match idxToId vs.idToIdx p.1 with
          | none => Except.ok acc
          | some docId =>
            match dictGet vs.documents docId with
            | some doc => Except.ok (acc ++ [(doc, 1 / (1 + p.2))])
            | none => Except.error (Err.keyError docId)) acc = Except.ok l ∧
        ∀ r ∈ l, r.1.id ∈ vs.documents.map (fun p => p.1) := by
  intro nn
  induction nn with
  | nil => intro acc hacc; exact ⟨acc, rfl, hacc⟩
  | cons p t ih =>
    intro acc hacc
    rw [List.foldlM_cons]
    cases hid : idxToId vs.idToIdx p.1 with
    | none =>
      rcases ih acc hacc with ⟨l, hl, hlsub⟩
      refine ⟨l, ?_, hlsub⟩
      simp only [hid]
      exact hl
    | some docId =>
      have hdm : docId ∈ vs.documents.map (fun q => q.1) :=
        hsub docId (idxToId_mem_keys _ _ _ hid)
      rcases Option.isSome_iff_exists.1 ((dictGet_isSome_iff _ _).2 hdm) with ⟨doc, hdoc⟩
      have hmem : (docId, doc) ∈ vs.documents := dictGet_some_mem _ _ _ hdoc
      have hdid : doc.id = docId := hinv _ hmem
      have hacc' : ∀ r ∈ acc ++ [(doc, 1 / (1 + p.2))],
          r.1.id ∈ vs.documents.map (fun q => q.1) := by
        intro r hr
        rcases List.mem_append.1 hr with h1 | h1
        · exact hacc r h1
        · simp only [List.mem_singleton] at h1
          rw [h1]
          show doc.id ∈ _
          rw [hdid]
          exact hdm
      rcases ih _ hacc' with ⟨l, hl, hlsub⟩
      refine ⟨l, ?_, hlsub⟩
      simp only [hid, hdoc]
      exact hl

theorem vector_search_ok (vs : VectorStore) (env : Env) (q : String) (k : Nat)
    (hsub : ∀ id ∈ vs.idToIdx.map (fun p => p.1), id ∈ vs.documents.map (fun p => p.1))
    (hinv : ∀ p ∈ vs.documents, p.2.id = p.1)
    (hq : ∃ qe, env.embedQuery q = Except.ok qe) :
    ∃ l, vs.search env q k = Except.ok l ∧
      ∀ r ∈ l, r.1.id ∈ vs.documents.map (fun p => p.1) := by
  rw [VectorStore.search]
  by_cases hv : vs.vectors.length = 0
  · rw [if_pos hv]
    exact ⟨[], rfl, by simp⟩
  · rw [if_neg hv]
    rcases hq with ⟨qe, hqe⟩
    rw [hqe]
    exact resolveM_ok vs hsub hinv _ [] (by simp)

theorem resolveFold_all_resolve (vs : VectorStore) :
    ∀ (l : List (String × ℚ)) (acc : List (Document × ℚ)),
      (∀ p ∈ l, (vs.getDocument p.1).isSome) →
      (l.foldl (fun acc p =>
        match vs.getDocument p.1 with
        | some doc => acc ++ [(doc, p.2)]
        | none => acc) acc).length = acc.length + l.length := by
  intro l
  induction l with
  | nil => intro acc _; simp
  | cons p t ih =>
    intro acc hall
    rw [List.foldl_cons]
    rcases Option.isSome_iff_exists.1 (hall p (by simp)) with ⟨doc, hdoc⟩
    simp only [hdoc]
    rw [ih (acc ++ [(doc, p.2)]) (fun r hr => hall r (List.mem_cons_of_mem p hr))]
    simp only [List.length_append, List.length_cons, List.length_nil]
    omega

theorem map_fst_zip_of_le {α β : Type} (l1 : List α) (l2 : List β)
    (h : l1.length ≤ l2.length) : (l1.zip l2).map (fun p => p.1) = l1 :=
  List.map_fst_zip l1 l2 h

/-- Claim C8: on a non-empty corpus indexed through
`HybridSearch.index_documents`, a `search` with `top_k` strictly greater than
the corpus size returns exactly corpus-size results instead of failing. -/
theorem search_topk_exceeds_corpus (env : Env) (key : String) (alpha : ℚ) (cfg : Config)
    (docs : List Document) (q : String) (topK : Nat) (hs1 : HybridSearch)
    (hnd : (docs.map (fun d => d.id)).Nodup)
    (_hne : docs ≠ [])
    (htop : docs.length < topK)
    (hidx : (HybridSearch.mkInit (VectorStore.emptyStore key) (some alpha)
        cfg).indexDocuments env docs = Except.ok hs1)
    (hbm : (env.bm25Scores (docs.map (fun d => pySplit d.content)) (pySplit q)).length =
      docs.length)
    (hq : ∃ qe, env.embedQuery q = Except.ok qe) :
    ∃ l, hs1.search env q topK = Except.ok l ∧ l.length = docs.length := by
  rw [HybridSearch.indexDocuments] at hidx
  cases hadd : (HybridSearch.mkInit (VectorStore.emptyStore key) (some alpha)
      cfg).vs.addDocuments env docs with
  | error e => rw [hadd] at hidx; cases hidx
  | ok vs1 =>
    rw [hadd] at hidx
    have hkeys := addDocuments_ok_keys _ env docs vs1 hadd hnd
      (by intro i _ hm; simp [HybridSearch.mkInit, VectorStore.emptyStore] at hm)
      (by intro i _ hm; simp [HybridSearch.mkInit, VectorStore.emptyStore] at hm)
    have hdocsK : vs1.documents.map (fun p => p.1) = docs.map (fun d => d.id) := by
      have h1 := hkeys.1
      simpa [HybridSearch.mkInit, VectorStore.emptyStore] using h1
    have hidxK : vs1.idToIdx.map (fun p => p.1) = docs.map (fun d => d.id) := by
      have h1 := hkeys.2
      simpa [HybridSearch.mkInit, VectorStore.emptyStore] using h1
    have hinv : ∀ p ∈ vs1.documents, p.2.id = p.1 :=
      addDocuments_ok_docId_inv _ env docs vs1 hadd
        (by intro p hp; simp [HybridSearch.mkInit, VectorStore.emptyStore] at hp)
    have hs1eq : hs1 =
        ⟨vs1, alpha, some (docs.map (fun d => pySplit d.content)),
          docs.map (fun d => d.id)⟩ := by
      simp only [Except.ok.injEq] at hidx
      rw [← hidx]
      rfl
    subst hs1eq
    rcases vector_search_ok vs1 env q (topK * 2)
        (by intro id hid; rw [hdocsK]; rw [hidxK] at hid; exact hid)
        hinv hq with ⟨semRes, hsem, hsemsub⟩
    simp only [HybridSearch.search, hsem]
    refine ⟨_, rfl, ?_⟩
    have hnlen : docs.length ≤
        (normalizeBM25 (env.bm25Scores (docs.map (fun d => pySplit d.content))
          (pySplit q))).length := by
      rw [normalizeBM25_length, hbm]
    have hzipK : ((docs.map (fun d => d.id)).zip
        (normalizeBM25 (env.bm25Scores (docs.map (fun d => pySplit d.content))
          (pySplit q)))).map (fun p => p.1) = docs.map (fun d => d.id) :=
      map_fst_zip_of_le _ _ (by simpa using hnlen)
    have hKmem : ∀ x, x ∈ (blendScores alpha (docs.map (fun d => d.id))
        (normalizeBM25 (env.bm25Scores (docs.map (fun d => pySplit d.content))
          (pySplit q))) semRes).map (fun p => p.1) ↔
        x ∈ docs.map (fun d => d.id) := by
      intro x
      rw [blendScores, mem_keys_semFold, mem_keys_lexFold, hzipK]
      simp only [List.map_nil, List.not_mem_nil, or_false]
      constructor
      · rintro (hx | hx)
        · rcases List.mem_map.1 hx with ⟨r, hr, hrx⟩
          have h2 := hsemsub r hr
          rw [hdocsK] at h2
          rw [← hrx]
          exact h2
        · exact hx
      · intro hx
        exact Or.inr hx
    have hKnd : ((blendScores alpha (docs.map (fun d => d.id))
        (normalizeBM25 (env.bm25Scores (docs.map (fun d => pySplit d.content))
          (pySplit q))) semRes).map (fun p => p.1)).Nodup := by
      rw [blendScores]
      exact keys_nodup_semFold alpha semRes _ (keys_nodup_lexFold alpha _ [] (by simp))
    have hClen : (blendScores alpha (docs.map (fun d => d.id))
        (normalizeBM25 (env.bm25Scores (docs.map (fun d => pySplit d.content))
          (pySplit q))) semRes).length = docs.length := by
      have h1 := le_antisymm
        ((hKnd.subperm (fun x hx => (hKmem x).1 hx)).length_le)
        ((hnd.subperm (fun x hx => (hKmem x).2 hx)).length_le)
      simpa using h1
    have hslen : (stableSort (fun a b => decide (b.2 ≤ a.2))
        (blendScores alpha (docs.map (fun d => d.id))
          (normalizeBM25 (env.bm25Scores (docs.map (fun d => pySplit d.content))
            (pySplit q))) semRes)).length = docs.length := by
      rw [length_stableSort, hClen]
    have htake : (stableSort (fun a b => decide (b.2 ≤ a.2))
        (blendScores alpha (docs.map (fun d => d.id))
          (normalizeBM25 (env.bm25Scores (docs.map (fun d => pySplit d.content))
            (pySplit q))) semRes)).take topK =
        stableSort (fun a b => decide (b.2 ≤ a.2))
          (blendScores alpha (docs.map (fun d => d.id))
            (normalizeBM25 (env.bm25Scores (docs.map (fun d => pySplit d.content))
              (pySplit q))) semRes) :=
      List.take_of_length_le (by rw [hslen]; exact le_of_lt htop)
    rw [htake]
    have hres : ∀ p ∈ stableSort (fun a b => decide (b.2 ≤ a.2))
        (blendScores alpha (docs.map (fun d => d.id))
          (normalizeBM25 (env.bm25Scores (docs.map (fun d => pySplit d.content))
            (pySplit q))) semRes), (vs1.getDocument p.1).isSome := by
      intro p hp
      have hpK := List.mem_map_of_mem (fun r : String × ℚ => r.1)
        ((mem_stableSort _ p _).1 hp)
      have hpd := (hKmem p.1).1 hpK
      rw [VectorStore.getDocument]
      refine (dictGet_isSome_iff _ _).2 ?_
      rw [hdocsK]
      exact hpd
    rw [resolveFold_all_resolve vs1 _ [] hres]
    rw [hslen]
    simp

theorem search_topk_exceeds_corpus_witness :
    ∃ hs1 : HybridSearch,
      (HybridSearch.mkInit (VectorStore.emptyStore "key") (some (1/2))
          ⟨"key", "key", 1/2, 5⟩).indexDocuments sampleEnv [sampleDoc] =
        Except.ok hs1 ∧
      ∃ l, hs1.search sampleEnv "cat" 2 = Except.ok l ∧
        l.length = [sampleDoc].length :=
  ⟨_, rfl,
    search_topk_exceeds_corpus sampleEnv "key" (1/2) ⟨"key", "key", 1/2, 5⟩ [sampleDoc]
      "cat" 2 _ (by decide) (by simp) (by decide) rfl rfl ⟨[], rfl⟩⟩

end RepoDocGen
